import Mathlib

/-!
Verification of a minimal proof-of-work blockchain (Rust sources
`src/block.rs` and `src/main.rs`).

The development shallowly embeds the program:
bytes and machine words are `Nat` with explicit `% 2 ^ w` where wrapping
matters, `blake3::hash` is embedded as an executable BLAKE3 implementation
over byte lists, and `serde_json` serialization of the `Block` struct is
embedded byte-for-byte (compact JSON, declaration field order, the `hash`
field skipped via `#[serde(skip_serializing)]`).
-/

set_option maxRecDepth 100000

namespace SmallChain

/-- Wrapping 32-bit addition (`u32` addition in the compression function). -/
def add32 (a b : Nat) : Nat := (a + b) % 2 ^ 32

/-- Right rotation of a 32-bit word by `n` bits (`n < 32`). -/
def rotr32 (x n : Nat) : Nat := (x / 2 ^ n + x % 2 ^ n * 2 ^ (32 - n)) % 2 ^ 32

/-- The BLAKE3 initialization vector (the first eight SHA-256 IV words). -/
def iv : List Nat :=
  [0x6A09E667, 0xBB67AE85, 0x3C6EF372, 0xA54FF53A,
   0x510E527F, 0x9B05688C, 0x1F83D9AB, 0x5BE0CD19]

/-- The BLAKE3 quarter-round `g`, mixing two message words into four state
words; returns the updated `(a, b, c, d)`. -/
def gMix (a b c d mx my : Nat) : Nat × Nat × Nat × Nat :=
  let a := add32 (add32 a b) mx
  let d := rotr32 (d ^^^ a) 16
  let c := add32 c d
  let b := rotr32 (b ^^^ c) 12
  let a := add32 (add32 a b) my
  let d := rotr32 (d ^^^ a) 8
  let c := add32 c d
  let b := rotr32 (b ^^^ c) 7
  (a, b, c, d)

/-- One BLAKE3 round: four column mixes then four diagonal mixes over a
16-word state with a 16-word message block. -/
def blakeRound : List Nat → List Nat → List Nat
  | [s0, s1, s2, s3, s4, s5, s6, s7, s8, s9, s10, s11, s12, s13, s14, s15],
    [m0, m1, m2, m3, m4, m5, m6, m7, m8, m9, m10, m11, m12, m13, m14, m15] =>
    let (s0, s4, s8, s12) := gMix s0 s4 s8 s12 m0 m1
    let (s1, s5, s9, s13) := gMix s1 s5 s9 s13 m2 m3
    let (s2, s6, s10, s14) := gMix s2 s6 s10 s14 m4 m5
    let (s3, s7, s11, s15) := gMix s3 s7 s11 s15 m6 m7
    let (s0, s5, s10, s15) := gMix s0 s5 s10 s15 m8 m9
    let (s1, s6, s11, s12) := gMix s1 s6 s11 s12 m10 m11
    let (s2, s7, s8, s13) := gMix s2 s7 s8 s13 m12 m13
    let (s3, s4, s9, s14) := gMix s3 s4 s9 s14 m14 m15
    [s0, s1, s2, s3, s4, s5, s6, s7, s8, s9, s10, s11, s12, s13, s14, s15]
  | s, _ => s

/-- The BLAKE3 message permutation, applied to the message block between
rounds. -/
def permuteMsg : List Nat → List Nat
  | [m0, m1, m2, m3, m4, m5, m6, m7, m8, m9, m10, m11, m12, m13, m14, m15] =>
    [m2, m6, m3, m10, m7, m0, m4, m13, m1, m11, m12, m5, m9, m14, m15, m8]
  | m => m

/-- The BLAKE3 compression function (7 rounds), returning the 8-word
chaining value.  `cv` is the 8-word input chaining value, `m` the 16-word
message block, `counter` the 64-bit chunk counter. -/
def compress (cv m : List Nat) (counter blockLen flags : Nat) : List Nat :=
  let st := cv ++ [0x6A09E667, 0xBB67AE85, 0x3C6EF372, 0xA54FF53A,
                   counter % 2 ^ 32, counter / 2 ^ 32 % 2 ^ 32, blockLen, flags]
  let st := blakeRound st m
  let m := permuteMsg m
  let st := blakeRound st m
  let m := permuteMsg m
  let st := blakeRound st m
  let m := permuteMsg m
  let st := blakeRound st m
  let m := permuteMsg m
  let st := blakeRound st m
  let m := permuteMsg m
  let st := blakeRound st m
  let m := permuteMsg m
  let st := blakeRound st m
  match st with
  | [s0, s1, s2, s3, s4, s5, s6, s7, s8, s9, s10, s11, s12, s13, s14, s15] =>
    [s0 ^^^ s8, s1 ^^^ s9, s2 ^^^ s10, s3 ^^^ s11,
     s4 ^^^ s12, s5 ^^^ s13, s6 ^^^ s14, s7 ^^^ s15]
  | _ => []

/-- Little-endian decoding of a byte list into 32-bit words (four bytes per
word). -/
def leWords : List Nat → List Nat
  | b0 :: b1 :: b2 :: b3 :: rest =>
    (b0 + b1 * 256 + b2 * 65536 + b3 * 16777216) :: leWords rest
  | _ => []

/-- Little-endian encoding of one 32-bit word as four bytes. -/
def wordBytes (w : Nat) : List Nat :=
  [w % 256, w / 256 % 256, w / 65536 % 256, w / 16777216 % 256]

/-- Little-endian encoding of a word list as a byte list. -/
def wordsToBytes (ws : List Nat) : List Nat := ws.flatMap wordBytes

/-- Zero-padding of a message block to the 64-byte block size. -/
def padBlock (blk : List Nat) : List Nat := blk ++ List.replicate (64 - blk.length) 0

/-- Splitting of a byte list into pieces of `sz` bytes (`sz > 0`), by
structural recursion on a fuel that the piece count never exhausts: each
recursive step removes `sz ≥ 1` elements, so `msg.length` steps always
suffice. -/
def splitPieces (sz : Nat) : Nat → List Nat → List (List Nat)
  | 0, msg => [msg]
  | fuel + 1, msg =>
    if msg.length ≤ sz then [msg]
    else msg.take sz :: splitPieces sz fuel (msg.drop sz)

/-- Splitting of a chunk into 64-byte message blocks; an empty chunk yields
one empty block. -/
def chunkBlocks (msg : List Nat) : List (List Nat) := splitPieces 64 msg.length msg

/-- Splitting of a message into 1024-byte chunks; an empty message yields
one empty chunk. -/
def msgChunks (msg : List Nat) : List (List Nat) := splitPieces 1024 msg.length msg

/-- Chaining-value computation for one chunk: the blocks are compressed in
sequence, the first with the CHUNK_START flag (1), the last with the
CHUNK_END flag (2) plus `finalFlags` (the ROOT flag when the chunk is the
whole tree). -/
def processBlocks (cv : List Nat) (blocks : List (List Nat))
    (counter startFlag finalFlags : Nat) : List Nat :=
  match blocks with
  | [] => cv
  | [blk] => compress cv (leWords (padBlock blk)) counter blk.length
      (startFlag + 2 + finalFlags)
  | blk :: rest =>
    processBlocks (compress cv (leWords (padBlock blk)) counter blk.length startFlag)
      rest counter 0 finalFlags

/-- Chaining value of one chunk of the message. -/
def chunkCV (chunk : List Nat) (counter finalFlags : Nat) : List Nat :=
  processBlocks iv (chunkBlocks chunk) counter 1 finalFlags

/-- Largest power of two strictly below `n`, for `n ≥ 2`; determines the
left-subtree size in the BLAKE3 hash tree.  Structural recursion on a fuel
that the halving never exhausts. -/
def floorPow2F : Nat → Nat → Nat
  | 0, _ => 1
  | fuel + 1, n => if n ≤ 2 then 1 else 2 * floorPow2F fuel ((n + 1) / 2)

/-- Largest power of two strictly below `n`, for `n ≥ 2`. -/
def floorPow2 (n : Nat) : Nat := floorPow2F n n

/-- Combination of chunk chaining values into a subtree chaining value by
parent compressions (PARENT flag 4).  The fuel is an upper bound on the
number of chunk chaining values, which strictly decreases at each split. -/
def combineCVs : Nat → List (List Nat) → List Nat
  | 0, _ => []
  | _ + 1, [] => []
  | _ + 1, [cv] => cv
  | fuel + 1, cvs =>
    let k := floorPow2 cvs.length
    compress iv (combineCVs fuel (cvs.take k) ++ combineCVs fuel (cvs.drop k)) 0 64 4

/-- The BLAKE3 hash (default 32-byte output) of a byte list, embedding
`blake3::hash`.  A single-chunk message is hashed with the ROOT flag (8) on
its last block; a longer message hashes each chunk with its index as
counter and combines the chunk chaining values in the BLAKE3 binary tree,
the top parent compression carrying PARENT + ROOT.  Every serialization
hashed in this repository is far below one chunk (1024 bytes). -/
def blake3Hash (msg : List Nat) : List Nat :=
  match msgChunks msg with
  | [c] => wordsToBytes (chunkCV c 0 8)
  | cs =>
    let cvs := cs.enum.map fun p => chunkCV p.2 p.1 0
    let k := floorPow2 cvs.length
    wordsToBytes
      (compress iv (combineCVs cvs.length (cvs.take k) ++ combineCVs cvs.length (cvs.drop k))
        0 64 12)

/-- UTF-8 encoding of one Unicode scalar value as a byte list. -/
def utf8Bytes (c : Nat) : List Nat :=
  if c < 128 then [c]
  else if c < 2048 then [192 + c / 64, 128 + c % 64]
  else if c < 65536 then [224 + c / 4096, 128 + c / 64 % 64, 128 + c % 64]
  else [240 + c / 262144, 128 + c / 4096 % 64, 128 + c / 64 % 64, 128 + c % 64]

/-- UTF-8 bytes of a string (a Rust `String` is UTF-8 by construction). -/
def strBytes (s : String) : List Nat := s.data.flatMap fun c => utf8Bytes c.toNat

/-- ASCII code of a lowercase hexadecimal digit. -/
def hexDigitByte (n : Nat) : Nat := if n < 10 then 48 + n else 87 + n

/-- JSON encoding of one character of a string, exactly as `serde_json`
escapes it: `"` and `\` get a backslash escape, the control characters
0x08, 0x09, 0x0A, 0x0C, 0x0D get their short escapes, all other control
characters below 0x20 become `\u00xx` with lowercase hex, and everything
else is passed through as its UTF-8 bytes. -/
def escapeChar (c : Nat) : List Nat :=
  if c = 34 then [92, 34]
  else if c = 92 then [92, 92]
  else if c = 8 then [92, 98]
  else if c = 9 then [92, 116]
  else if c = 10 then [92, 110]
  else if c = 12 then [92, 102]
  else if c = 13 then [92, 114]
  else if c < 32 then [92, 117, 48, 48, hexDigitByte (c / 16), hexDigitByte (c % 16)]
  else utf8Bytes c

/-- Bytes of the body of a JSON string literal for `s` (without the
surrounding quotes). -/
def jsonStringBytes (s : String) : List Nat := s.data.flatMap fun c => escapeChar c.toNat

/-- ASCII bytes of the decimal representation of an unsigned integer, as
`serde_json` writes `u64`/`u128`/`u8` values. -/
def decBytes (n : Nat) : List Nat := strBytes (Nat.repr n)

/-- Comma-separated concatenation of byte lists (ASCII comma 44). -/
def commaJoin : List (List Nat) → List Nat
  | [] => []
  | [x] => x
  | x :: xs => x ++ [44] ++ commaJoin xs

/-- JSON array of numbers (how `serde_json` serializes `[u8; 32]`):
`[` then the comma-separated decimal elements then `]`. -/
def jsonNatArray (ns : List Nat) : List Nat := [91] ++ commaJoin (ns.map decBytes) ++ [93]

/-- The `Block` struct of `src/block.rs`.  `index` is a `u64`, `data` a
`String`, `previous_hash` and `hash` are `[u8; 32]` embedded as byte lists,
and `nonce` is a `u128`; machine integers are embedded as `Nat` and the
mining loop takes its nonces modulo `2 ^ 128`. -/
structure Block where
  index : Nat
  data : String
  previous_hash : List Nat
  hash : List Nat
  nonce : Nat
  deriving Repr, DecidableEq

/-- The 32 zero bytes (`[0; 32]`, the genesis `previous_hash` and the
`Default` value of the hash fields). -/
def zeros32 : List Nat := List.replicate 32 0

/-- The `serde_json` serialization of a `Block`: compact JSON, fields in
declaration order, the `hash` field excluded by
`#[serde(skip_serializing)]`.  This is the byte sequence produced by both
`serde_json::to_string` (in `calculate_hash`) and `serde_json::to_vec` (in
`mine`). -/
def serializeBlock (b : Block) : List Nat :=
  strBytes "\x7b\"index\":" ++ decBytes b.index
    ++ strBytes ",\"data\":\"" ++ jsonStringBytes b.data
    ++ strBytes "\",\"previous_hash\":" ++ jsonNatArray b.previous_hash
    ++ strBytes ",\"nonce\":" ++ decBytes b.nonce ++ [125]

/-- The `DIFFICULTY_TARGET` constant of `src/main.rs` (line 65). -/
def DIFFICULTY_TARGET : Nat := 2

/-- Embedding of `Block::calculate_hash` (`src/block.rs` lines 27-31): the
block is serialized with `serde_json::to_string` (the `hash` field
skipped), hashed with `blake3::hash`, and the function returns
`format!("\x7b:?\x7d", digest.as_bytes().first())` — the `Debug` rendering
of the `Option<&u8>` holding only the FIRST byte of the digest. -/
def calculate_hash (b : Block) : String :=
  match blake3Hash (serializeBlock b) with
  | [] => "None"
  | x :: _ => "Some(" ++ Nat.repr x ++ ")"

/-- Hash commitment of a block's `index`, `data`, `previous_hash` fields at
nonce `n`: the BLAKE3 digest of the serialization with `nonce` set to `n`
(the carried `hash` field does not influence it, since serialization skips
it).  This is the candidate hash computed by each iteration of
`Block::mine`. -/
def commitAt (b : Block) (n : Nat) : List Nat :=
  blake3Hash (serializeBlock { b with nonce := n })

/-- The difficulty check of `Block::mine` (`src/block.rs` line 37): the
first byte of the candidate hash is 0 (`self.hash[0] == 0`). -/
def satAt (b : Block) (n : Nat) : Prop := (commitAt b n).head? = some 0

instance (b : Block) (n : Nat) : Decidable (satAt b n) :=
  inferInstanceAs (Decidable ((commitAt b n).head? = some 0))

/-- Embedding of the loop of `Block::mine` (`src/block.rs` lines 32-41)
from the state where the next nonce to try is `nonce`: set `self.nonce`,
serialize, set `self.hash` to the BLAKE3 digest, return if its first byte
is 0, otherwise continue with the next nonce.  The `0..` iterator over
`u128` wraps at the end of the nonce space (release-mode semantics; a
debug build would instead panic on the overflowing increment), hence the
`% 2 ^ 128`.  `fuel` bounds the number of iterations modelled: `none`
means the loop is still searching after `fuel` iterations — the Rust
function has no other way to stop. -/
def mineGo (b : Block) (nonce fuel : Nat) : Option Block :=
  match fuel with
  | 0 => none
  | fuel + 1 =>
    if satAt b nonce then some { b with nonce := nonce, hash := commitAt b nonce }
    else mineGo { b with nonce := nonce, hash := commitAt b nonce }
      ((nonce + 1) % 2 ^ 128) fuel

/-- Embedding of `Block::mine`: the nonce search starts at 0. -/
def mine (b : Block) (fuel : Nat) : Option Block := mineGo b 0 fuel

/-- Observable state of the `data_feed` producer loop of `src/main.rs`
(lines 77-86): `running sent dropped` means the loop is about to start
another iteration having delivered `sent` payloads and generated `dropped`
payloads whose send failed; `stopped` is the outcome the spec prescribes
on channel closure.  The constructor `stopped` exists so that termination
is expressible; the embedded loop below never produces it. -/
inductive FeedState where
  | running (sent dropped : Nat)
  | stopped (sent dropped : Nat)
  deriving Repr, DecidableEq

/-- Embedding of the control flow of `data_feed`: each fuel step is one
loop iteration (generate a payload, `tx.send(data).await`, sleep 500 ms).
`closed` models whether the receiving side of the channel has been
dropped: if so `send` returns `Err` — the code prints the error with
`eprintln!` and falls through to the next iteration, dropping the payload;
otherwise `send` delivers the payload (awaiting capacity first if the
bounded channel is momentarily full, per the channel's contract).  The
payload contents (random strings) do not influence the control flow and
are not modelled. -/
def data_feed (closed : Bool) : Nat → Nat → Nat → FeedState
  | 0, sent, dropped => .running sent dropped
  | fuel + 1, sent, dropped =>
    if closed then data_feed closed fuel sent (dropped + 1)
    else data_feed closed fuel (sent + 1) dropped

/-- Modelled from the spec: the error taxonomy of `Chain.append` (§4.3,
§7 of the spec).  The repository contains no chain implementation — step 3
of the exercise in `src/main.rs` is unimplemented — so the append
operation is modelled from the spec's words. -/
inductive AppendError where
  | BadIndex
  | BadLinkage
  | BelowDifficulty
  | HashMismatch
  deriving Repr, DecidableEq

/-- Modelled from the spec: the hash of a chain's current tip, or 32 zero
bytes for an empty chain (§3, §4.3). -/
def tipHash (c : List Block) : List Nat :=
  match c.getLast? with
  | some b => b.hash
  | none => zeros32

/-- Modelled from the spec: the index the next appended block must carry —
`tip.index + 1`, or 0 for an empty chain (§4.3). -/
def nextIndex (c : List Block) : Nat :=
  match c.getLast? with
  | some b => b.index + 1
  | none => 0

/-- Modelled from the spec: the difficulty predicate — the first `d` bytes
of the hash are zero (§3 DifficultyTarget, byte-granular per §9). -/
def satisfiesDifficulty (d : Nat) (h : List Nat) : Prop :=
  h.take d = List.replicate d 0

instance (d : Nat) (h : List Nat) : Decidable (satisfiesDifficulty d h) :=
  inferInstanceAs (Decidable (h.take d = List.replicate d 0))

/-- Modelled from the spec: `Chain.append` (§4.3).  The candidate is
validated — linkage to the tip, index, difficulty, and the recomputed hash
commitment — and appended only if every check passes; on failure the chain
is returned unmodified together with the distinguishing error.  Linkage is
checked first, so that the spec's testable property "append rejects bad
linkage with `BadLinkage`" (§8) holds unconditionally.  `d` is the active
difficulty (the spec models it as a value passed in at construction). -/
def append (d : Nat) (c : List Block) (cand : Block) : List Block × Option AppendError :=
  if cand.previous_hash ≠ tipHash c then (c, some .BadLinkage)
  else if cand.index ≠ nextIndex c then (c, some .BadIndex)
  else if ¬ satisfiesDifficulty d cand.hash then (c, some .BelowDifficulty)
  else if cand.hash ≠ blake3Hash (serializeBlock cand) then (c, some .HashMismatch)
  else (c ++ [cand], none)

/-- Mining input with payload `"137"`: genesis-style block whose very first
candidate nonce (0) already has a zero leading hash byte. -/
def blockA : Block := ⟨0, "137", zeros32, zeros32, 0⟩

/-- The block `mine` produces from `blockA` (computed by the embedded
miner; the digest is the BLAKE3 hash of its serialization at nonce 0). -/
def minedA : Block :=
  ⟨0, "137", zeros32,
   [0, 4, 69, 150, 113, 237, 52, 86, 210, 44, 73, 23, 52, 191, 152, 116, 25, 2, 4, 154,
    205, 213, 186, 245, 59, 82, 48, 115, 176, 167, 255, 154], 0⟩

/-- Mining input with payload `"136"`: the nonces 0 and 1 fail the
difficulty check and nonce 2 passes it. -/
def blockB : Block := ⟨0, "136", zeros32, zeros32, 0⟩

/-- The block `mine` produces from `blockB` (found at nonce 2). -/
def minedB : Block :=
  ⟨0, "136", zeros32,
   [0, 54, 130, 181, 124, 220, 52, 94, 67, 100, 184, 222, 133, 237, 2, 250, 119, 122,
    35, 4, 192, 114, 167, 45, 26, 252, 219, 187, 215, 70, 222, 201], 2⟩

/-- Mining input with payload `"x"`, used to exhibit the loop's behaviour
at the very last nonce of the `u128` space. -/
def blockX : Block := ⟨0, "x", zeros32, zeros32, 0⟩

/-- The state of `blockX`'s miner after it has tried the last nonce
`2 ^ 128 - 1`: that candidate hash (below) has first byte 13 ≠ 0. -/
def blockXAtEnd : Block :=
  ⟨0, "x", zeros32,
   [13, 178, 104, 188, 79, 50, 19, 43, 68, 61, 60, 45, 241, 56, 165, 34, 63, 195, 46,
    114, 58, 45, 21, 215, 26, 8, 9, 144, 185, 232, 124, 154], 2 ^ 128 - 1⟩

/-- Block with payload `"0"`: its commitment digest starts with byte 5. -/
def blockD0 : Block := ⟨0, "0", zeros32, zeros32, 0⟩

/-- Block with payload `"7"`: a different commitment digest that also
starts with byte 5. -/
def blockD7 : Block := ⟨0, "7", zeros32, zeros32, 0⟩

/-- Copy of `blockD0` with a different `hash` field. -/
def blockD0h : Block := ⟨0, "0", zeros32, List.replicate 32 1, 0⟩

/-- Candidate block whose `previous_hash` (32 one bytes) does not link to
an empty chain's tip hash (32 zero bytes). -/
def candW : Block := ⟨0, "w", List.replicate 32 1, zeros32, 0⟩

/-- Concrete run of the miner on `blockA`: the first candidate nonce
already satisfies the first-byte check. -/
theorem mine_blockA : mine blockA 1 = some minedA := by rfl

/-- Concrete run of the miner on `blockB`: nonces 0 and 1 fail, nonce 2
succeeds. -/
theorem mine_blockB : mine blockB 3 = some minedB := by rfl

/-- Serialization of a block does not read the `hash` field. -/
theorem serializeBlock_mk (i : Nat) (d : String) (p h1 h2 : List Nat) (n : Nat) :
    serializeBlock ⟨i, d, p, h1, n⟩ = serializeBlock ⟨i, d, p, h2, n⟩ := rfl

/-- Updating the `hash` field of a block does not change its
serialization, which skips that field. -/
theorem serializeBlock_hash_irrel (b : Block) (h' : List Nat) :
    serializeBlock { b with hash := h' } = serializeBlock b := rfl

/-- The difficulty check of the mining loop only depends on the fields the
serialization reads; the carried `nonce` and `hash` are irrelevant. -/
theorem satAt_set (b : Block) (k m : Nat) (h' : List Nat) :
    satAt { b with nonce := k, hash := h' } m = satAt b m := rfl

/-- Recomputing the commitment of the block state assembled by a mining
iteration reproduces the candidate hash that iteration stored. -/
theorem commit_of_minestate (b : Block) (n : Nat) :
    blake3Hash (serializeBlock { b with nonce := n, hash := commitAt b n })
      = commitAt b n := by
  rw [serializeBlock_mk b.index b.data b.previous_hash (commitAt b n) b.hash n]
  rfl

/-- Any block returned by the nonce-search loop carries as its `hash` the
BLAKE3 digest of its own serialization. -/
theorem mineGo_some_hash : ∀ (fuel n : Nat) (b b' : Block),
    mineGo b n fuel = some b' → blake3Hash (serializeBlock b') = b'.hash := by
  intro fuel
  induction fuel with
  | zero => intro n b b' h; simp [mineGo] at h
  | succ f ih =>
    intro n b b' h
    rw [mineGo] at h
    by_cases hc : satAt b n
    · rw [if_pos hc] at h
      injection h with h2
      subst h2
      rw [commit_of_minestate]
    · rw [if_neg hc] at h
      exact ih _ _ _ h

/-- The nonce-search loop never changes the `index`, `data` and
`previous_hash` fields of the block it works on. -/
theorem mineGo_frame : ∀ (fuel n : Nat) (b b' : Block), mineGo b n fuel = some b' →
    b'.index = b.index ∧ b'.data = b.data ∧ b'.previous_hash = b.previous_hash := by
  intro fuel
  induction fuel with
  | zero => intro n b b' h; simp [mineGo] at h
  | succ f ih =>
    intro n b b' h
    rw [mineGo] at h
    by_cases hc : satAt b n
    · rw [if_pos hc] at h
      injection h with h2
      subst h2
      exact ⟨rfl, rfl, rfl⟩
    · rw [if_neg hc] at h
      obtain ⟨e1, e2, e3⟩ := ih _ _ _ h
      exact ⟨e1, e2, e3⟩

/-- Without a satisfying nonce anywhere in the `u128` space, the mining
loop never returns, whatever the fuel. -/
theorem mineGo_none_of_unsat : ∀ (fuel n : Nat) (b : Block), n < 2 ^ 128 →
    (∀ m, m < 2 ^ 128 → ¬ satAt b m) → mineGo b n fuel = none := by
  intro fuel
  induction fuel with
  | zero => intro n b _ _; rfl
  | succ f ih =>
    intro n b hn hult
    rw [mineGo]
    rw [if_neg (hult n hn)]
    refine ih _ _ (Nat.mod_lt _ (by norm_num)) (fun m hm => ?_)
    rw [satAt_set]
    exact hult m hm

/-- When the least satisfying nonce `L` lies ahead of the current position
`n` (with no satisfying nonce before it), a successful search returns a
block whose stored nonce is exactly `L`. -/
theorem mineGo_finds_least : ∀ (fuel n L : Nat) (b b' : Block),
    satAt b L → (∀ k, k < L → ¬ satAt b k) → n ≤ L → L < 2 ^ 128 →
    mineGo b n fuel = some b' → b'.nonce = L := by
  intro fuel
  induction fuel with
  | zero => intro n L b b' _ _ _ _ h; simp [mineGo] at h
  | succ f ih =>
    intro n L b b' hL hmin hnL hL128 h
    rw [mineGo] at h
    by_cases hc : satAt b n
    · rw [if_pos hc] at h
      injection h with h2
      have hn : n = L := by
        rcases Nat.lt_or_ge n L with hlt | hge
        · exact absurd hc (hmin n hlt)
        · omega
      subst h2
      exact hn
    · rw [if_neg hc] at h
      have hlt : n < L := lt_of_le_of_ne hnL (fun he => hc (he ▸ hL))
      rw [Nat.mod_eq_of_lt (by omega)] at h
      have hL' : satAt { b with nonce := n, hash := commitAt b n } L := by
        rw [satAt_set]; exact hL
      have hmin' : ∀ k, k < L → ¬ satAt { b with nonce := n, hash := commitAt b n } k := by
        intro k hk
        rw [satAt_set]
        exact hmin k hk
      exact ih (n + 1) L _ b' hL' hmin' (by omega) hL128 h

/-- On a closed channel the producer loop keeps spinning: after `fuel`
further iterations it is still running, every generated payload having
been dropped by the failed send. -/
theorem data_feed_closed_spin : ∀ (fuel sent dropped : Nat),
    data_feed true fuel sent dropped = FeedState.running sent (dropped + fuel) := by
  intro fuel
  induction fuel with
  | zero => intro s d; rfl
  | succ f ih =>
    intro s d
    calc data_feed true (f + 1) s d = data_feed true f s (d + 1) := rfl
      _ = FeedState.running s (d + 1 + f) := ih s (d + 1)
      _ = FeedState.running s (d + (f + 1)) := congrArg (FeedState.running s) (by omega)

/-- On an open channel every payload is eventually delivered (the bounded
send blocks for capacity instead of dropping): after `fuel` iterations all
`fuel` payloads are sent and none dropped. -/
theorem data_feed_open_delivers : ∀ (fuel sent dropped : Nat),
    data_feed false fuel sent dropped = FeedState.running (sent + fuel) dropped := by
  intro fuel
  induction fuel with
  | zero => intro s d; rfl
  | succ f ih =>
    intro s d
    calc data_feed false (f + 1) s d = data_feed false f (s + 1) d := rfl
      _ = FeedState.running (s + 1 + f) d := ih (s + 1) d
      _ = FeedState.running (s + (f + 1)) d := by rw [Nat.add_assoc, Nat.add_comm 1 f]

/-- C1: for every block on which `mine` returns normally, the stored
`hash` equals the hash commitment (BLAKE3 of the canonical serialization
of index, data, previous_hash and nonce, with the `hash` field excluded)
recomputed from the block's stored fields, its stored nonce included. -/
theorem mine_hash_is_commitment (b : Block) (fuel : Nat) (b' : Block)
    (h : mine b fuel = some b') : blake3Hash (serializeBlock b') = b'.hash :=
  mineGo_some_hash fuel 0 b b' h

/-- C1 witness: the concrete mined block `minedA` reproduces its stored
hash when its commitment is recomputed. -/
theorem mine_hash_is_commitment_witness :
    blake3Hash (serializeBlock minedA) = minedA.hash :=
  mine_hash_is_commitment blockA 1 minedA mine_blockA

/-- C2: the claim says every mined block's hash has its first
`DIFFICULTY_TARGET = 2` bytes zero; the mining loop only checks the first
byte, and on the concrete input `blockA` it returns a block whose hash is
`[0, 4, ...]` — the second byte is 4, so the stored hash does not satisfy
the configured difficulty target.  (The `DIFFICULTY_TARGET` constant of
`src/main.rs` is never read by `Block::mine`.) -/
theorem mine_ignores_difficulty_target :
    mine blockA 1 = some minedA ∧
      minedA.hash.take DIFFICULTY_TARGET ≠ List.replicate DIFFICULTY_TARGET 0 := by
  exact ⟨mine_blockA, by decide⟩

/-- C3: the claim says exhausting the 128-bit nonce space surfaces a fatal
`NonceSpaceExhausted` condition to the caller; in the code `mine` returns
`()` and has no error path at all.  Concretely: when the search reaches the
last nonce `2 ^ 128 - 1` of the space on `blockX` (whose candidate hash
there fails the difficulty check), the loop's `0..` iterator wraps and the
search silently continues at nonce 0 — exactly the "silent wrapping" the
spec forbids (a debug build would panic on the overflow instead; neither
build signals anything to the caller). -/
theorem mine_wraps_at_nonce_space_end (fuel : Nat) :
    ¬ satAt blockX (2 ^ 128 - 1) ∧
      mineGo blockX (2 ^ 128 - 1) (fuel + 1) = mineGo blockXAtEnd 0 fuel := by
  constructor
  · decide
  · rfl

/-- C4: the claim says `calculate_hash` returns the full 32-byte digest of
the block's serialization; the code returns the `Debug` rendering of
`digest.first()` — only the first byte.  Concretely, `blockD0` and
`blockD7` have different 32-byte commitments whose first bytes happen to
coincide (both 5), and `calculate_hash` conflates them: both return the
string `"Some(5)"`. -/
theorem calculate_hash_truncates :
    calculate_hash blockD0 = "Some(5)" ∧ calculate_hash blockD7 = "Some(5)" ∧
      blake3Hash (serializeBlock blockD0) ≠ blake3Hash (serializeBlock blockD7) :=
  ⟨rfl, rfl, by decide⟩

/-- C5: appending a candidate whose `previous_hash` does not equal the
current tip's hash fails with `BadLinkage` and leaves the chain unchanged
(in particular its length); append is all-or-nothing.  (Spec-modelled:
the repository contains no chain implementation.) -/
theorem append_rejects_bad_linkage (d : Nat) (c : List Block) (cand : Block)
    (h : cand.previous_hash ≠ tipHash c) :
    append d c cand = (c, some AppendError.BadLinkage) ∧
      (append d c cand).1.length = c.length := by
  rw [append, if_pos h]
  exact ⟨rfl, rfl⟩

/-- C5 witness: appending `candW` (whose `previous_hash` is 32 one bytes)
to the empty chain fails with `BadLinkage` and leaves the chain empty. -/
theorem append_rejects_bad_linkage_witness :
    append DIFFICULTY_TARGET [] candW = ([], some AppendError.BadLinkage) ∧
      (append DIFFICULTY_TARGET [] candW).1.length = ([] : List Block).length :=
  append_rejects_bad_linkage DIFFICULTY_TARGET [] candW (by decide)

/-- C6: the mining loop is a linear search from nonce 0 upward, stopping
at the first nonce whose commitment passes the difficulty check the loop
enforces (first hash byte zero): whenever `mine` returns a block, its
stored nonce satisfies the check, lies in `[0, 2 ^ 128)`, and no smaller
nonce satisfies it. -/
theorem mine_finds_least_nonce (b : Block) (fuel : Nat) (b' : Block)
    (h : mine b fuel = some b') :
    satAt b b'.nonce ∧ b'.nonce < 2 ^ 128 ∧ ∀ m, m < b'.nonce → ¬ satAt b m := by
  have hex : ∃ m, m < 2 ^ 128 ∧ satAt b m := by
    by_contra hno
    push_neg at hno
    have hnone : mineGo b 0 fuel = none :=
      mineGo_none_of_unsat fuel 0 b (by norm_num) hno
    rw [mine, hnone] at h
    exact Option.noConfusion h
  obtain ⟨m0, hm0lt, hm0⟩ := hex
  have hexists : ∃ m, satAt b m := ⟨m0, hm0⟩
  have hLsat : satAt b (Nat.find hexists) := Nat.find_spec hexists
  have hLmin : ∀ k, k < Nat.find hexists → ¬ satAt b k :=
    fun k hk => Nat.find_min hexists hk
  have hL128 : Nat.find hexists < 2 ^ 128 :=
    lt_of_le_of_lt (Nat.find_min' hexists hm0) hm0lt
  have hnonce : b'.nonce = Nat.find hexists :=
    mineGo_finds_least fuel 0 (Nat.find hexists) b b' hLsat hLmin (Nat.zero_le _) hL128 h
  rw [hnonce]
  exact ⟨hLsat, hL128, hLmin⟩

/-- C6 witness: mining `blockB` returns the block with nonce 2, nonce 2
passes the first-byte check, and nonces 0 and 1 fail it. -/
theorem mine_finds_least_nonce_witness :
    satAt blockB minedB.nonce ∧ minedB.nonce < 2 ^ 128 ∧
      ∀ m, m < minedB.nonce → ¬ satAt blockB m :=
  mine_finds_least_nonce blockB 3 minedB mine_blockB

/-- C7: the hash commitment is deterministic — any two blocks that agree
on `index`, `data`, `previous_hash` and `nonce` produce the same digest. -/
theorem commitment_deterministic (b1 b2 : Block) (h1 : b1.index = b2.index)
    (h2 : b1.data = b2.data) (h3 : b1.previous_hash = b2.previous_hash)
    (h4 : b1.nonce = b2.nonce) :
    blake3Hash (serializeBlock b1) = blake3Hash (serializeBlock b2) := by
  cases b1 with | mk i1 d1 p1 x1 n1 =>
  cases b2 with | mk i2 d2 p2 x2 n2 =>
  dsimp only at h1 h2 h3 h4
  subst h1; subst h2; subst h3; subst h4
  rfl

/-- C7 witness: two concrete blocks equal except for their `hash` fields
have the same commitment digest. -/
theorem commitment_deterministic_witness :
    blake3Hash (serializeBlock blockD0) = blake3Hash (serializeBlock blockD0h) :=
  commitment_deterministic blockD0 blockD0h rfl rfl rfl rfl

/-- C8: the `hash` field is excluded from the serialization that computes
a block's own hash — two blocks equal in `index`, `data`, `previous_hash`
and `nonce` but differing in `hash` serialize to identical bytes, hence
identical commitments. -/
theorem serialization_excludes_hash (b1 b2 : Block) (h1 : b1.index = b2.index)
    (h2 : b1.data = b2.data) (h3 : b1.previous_hash = b2.previous_hash)
    (h4 : b1.nonce = b2.nonce) (h5 : b1.hash ≠ b2.hash) :
    serializeBlock b1 = serializeBlock b2 ∧
      blake3Hash (serializeBlock b1) = blake3Hash (serializeBlock b2) := by
  cases b1 with | mk i1 d1 p1 x1 n1 =>
  cases b2 with | mk i2 d2 p2 x2 n2 =>
  dsimp only at h1 h2 h3 h4
  subst h1; subst h2; subst h3; subst h4
  exact ⟨rfl, rfl⟩

/-- C8 witness: `blockD0` and `blockD0h` differ exactly in their `hash`
fields and serialize to the same bytes with the same digest. -/
theorem serialization_excludes_hash_witness :
    serializeBlock blockD0 = serializeBlock blockD0h ∧
      blake3Hash (serializeBlock blockD0) = blake3Hash (serializeBlock blockD0h) :=
  serialization_excludes_hash blockD0 blockD0h rfl rfl rfl rfl (by decide)

/-- C9 counterexample: the claim says that once a send fails because the
receiver is closed, `data_feed` observes the closure and terminates; in
the code the `Err` is only logged and the loop continues, so the producer
loop never reaches a stopped state, however long it runs. -/
theorem data_feed_never_stops_counterexample :
    ¬ ∃ fuel s d, data_feed true fuel 0 0 = FeedState.stopped s d := by
  rintro ⟨fuel, s, d, he⟩
  rw [data_feed_closed_spin fuel 0 0] at he
  exact FeedState.noConfusion he

/-- C9 (amended): when sends fail because the receiving side is closed,
`data_feed` logs each failure and keeps generating payloads, which are
dropped — it does not terminate; when the channel is open (merely full at
times), the blocking send delivers every payload and none is dropped. -/
theorem data_feed_logs_and_continues (fuel sent dropped : Nat) :
    data_feed true fuel sent dropped = FeedState.running sent (dropped + fuel) ∧
      data_feed false fuel sent dropped = FeedState.running (sent + fuel) dropped :=
  ⟨data_feed_closed_spin fuel sent dropped, data_feed_open_delivers fuel sent dropped⟩

/-- C10: `mine` mutates only the `nonce` and `hash` fields — the returned
block keeps the input block's `index`, `data` and `previous_hash`. -/
theorem mine_preserves_fields (b : Block) (fuel : Nat) (b' : Block)
    (h : mine b fuel = some b') :
    b'.index = b.index ∧ b'.data = b.data ∧ b'.previous_hash = b.previous_hash :=
  mineGo_frame fuel 0 b b' h

/-- C10 witness: the concrete mined block `minedA` agrees with `blockA` on
`index`, `data` and `previous_hash`. -/
theorem mine_preserves_fields_witness :
    minedA.index = blockA.index ∧ minedA.data = blockA.data ∧
      minedA.previous_hash = blockA.previous_hash :=
  mine_preserves_fields blockA 1 minedA mine_blockA

end SmallChain
